import Mathlib

set_option maxRecDepth 8000

/-!
Verification development for the neo-go execution core.

The repository's `src/` tree contains `pkg/core/transaction.go` (block-level
transaction processing), a consensus `prepareRequest` payload, and the test
suite of the script VM.  Definitions below are shallow embeddings of that
code: Go machine integers become `Nat`/`Int` with explicit `% 2 ^ w` where
overflow can occur, Go slices and maps become lists and association lists,
and fallible Go functions return `Option`/`Except`.  Parts of the program
whose implementation is not present in `src/` (the VM interpreter, the
serialization syscalls) are modelled from the specification, and each such
definition says so in its doc comment.
-/

namespace NeoGo

/-! ## VM stack items

Modelled from the spec: "Stack item — tagged union: integer (unbounded,
size-bounded), boolean, byte array, array, struct, map, interop-handle".
The VM implementation is not under `src/`; this inductive tree follows the
spec's data model, with a map represented by its list of key/value pairs. -/

/-- Modelled from the spec: the VM's tagged-union stack item. -/
inductive StackItem where
  | boolItem (b : Bool)
  | intItem (n : Int)
  | bytesItem (bs : List Nat)
  | arrayItem (xs : List StackItem)
  | structItem (xs : List StackItem)
  | mapItem (kvs : List (StackItem × StackItem))
  | interopItem (id : Nat)

/-! ## Consensus prepareRequest timestamp (src/unnamed/part_004) -/

/-- Embeds the `prepareRequest` struct of the consensus package
(`timestamp`, `nonce`, `transactionHashes`, `nextConsensus`); the two
`uint64` fields are naturals below `2 ^ 64`. -/
structure PrepareRequest where
  timestamp : Nat
  nonce : Nat
  transactionHashes : List Nat
  nextConsensus : Nat
deriving DecidableEq, Repr

/-- Embeds `SetTimestamp`: `p.timestamp = ts / 1000000` (Go integer
division on `uint64`). -/
def PrepareRequest.setTimestamp (p : PrepareRequest) (ts : Nat) : PrepareRequest :=
  { p with timestamp := ts / 1000000 }

/-- Embeds `Timestamp`: `p.timestamp * 1000000` with `uint64` wrap-around
made explicit. -/
def PrepareRequest.getTimestamp (p : PrepareRequest) : Nat :=
  (p.timestamp * 1000000) % 2 ^ 64

/-! ## VM arithmetic opcodes (modelled)

Modelled from the spec: "Integer cap: ADD/SUB/MUL/SHL that would exceed
`MaxBigIntegerSizeBits` FAULT; operands at the boundary succeed", calibrated
against the VM tests in `src/unnamed/part_003` (`TestADDBigResult`,
`TestArithBigArgument`, `TestSHLBigValue`, `TestSHLZero`, `TestSHLBigResult`,
`TestINCBigResult`).  `none` stands for the VM transitioning to FAULT. -/

/-- Modelled from the spec: the bit-width cap on VM integers. -/
def MaxBigIntegerSizeBits : Nat := 256

/-- Modelled from the spec: an integer is within the VM's size bound iff its
bit length is at most `MaxBigIntegerSizeBits`, i.e. `|n| < 2 ^ 256`. -/
def checkBigIntSize (n : Int) : Bool := n.natAbs < 2 ^ MaxBigIntegerSizeBits

/-- Modelled from the spec: a binary arithmetic opcode checks both operands
and the result against the integer size cap, faulting (`none`) on breach. -/
def vmArith (f : Int → Int → Int) (a b : Int) : Option Int :=
  if checkBigIntSize a && checkBigIntSize b then
    let r := f a b
    if checkBigIntSize r then some r else none
  else none

/-- Modelled from the spec: the ADD opcode. -/
def vmADD (a b : Int) : Option Int := vmArith (fun x y => x + y) a b

/-- Modelled from the spec: the SUB opcode. -/
def vmSUB (a b : Int) : Option Int := vmArith (fun x y => x - y) a b

/-- Modelled from the spec: the MUL opcode. -/
def vmMUL (a b : Int) : Option Int := vmArith (fun x y => x * y) a b

/-- Modelled from the spec and `TestSHLBigValue`: the largest shift amount
the SHL/SHR opcodes accept. -/
def maxSHLArg : Int := 256

/-- Modelled from the spec and the SHL tests: a zero shift returns the value
unchanged (`TestSHLZero`); a shift amount that is negative or above
`maxSHLArg` faults (`TestSHLBigValue`); otherwise the operand and the exact
result `a * 2 ^ b` are checked against the integer size cap. -/
def vmSHL (a b : Int) : Option Int :=
  if b = 0 then some a
  else if b < 0 ∨ maxSHLArg < b then none
  else if checkBigIntSize a then
    let r := a * (2 : Int) ^ b.toNat
    if checkBigIntSize r then some r else none
  else none

/-- Modelled from the spec and `TestINCBigResult`: the INC opcode adds one,
checking operand and result against the size cap. -/
def vmINC (a : Int) : Option Int :=
  if checkBigIntSize a then
    let r := a + 1
    if checkBigIntSize r then some r else none
  else none

/-! ## Serialization syscalls (modelled)

Modelled from the spec: `Runtime.Serialize` / `Runtime.Deserialize` over the
stack-item tagged union.  The byte format follows the compatibility test
`TestSerializeMapCompat` in `src/unnamed/part_003` (map tag `0x48`,
byte-array tag `0x28`, var-int lengths) and the spec's wire-format section
(little-endian integers, length-prefixed byte strings).  `none` stands for
the VM faulting. -/

/-- Modelled from the spec: the cap on byte-array item length (≈ 1 MiB). -/
def MaxItemSize : Nat := 1024 * 1024

/-- Modelled from the spec: the cap on array/map cardinality. -/
def MaxArraySize : Nat := 1024

/-- Little-endian base-256 digits of a natural, least significant first,
with no trailing zero byte. -/
def natToLE : Nat → List Nat
  | 0 => []
  | n + 1 => ((n + 1) % 256) :: natToLE ((n + 1) / 256)
decreasing_by exact Nat.div_lt_self (Nat.succ_pos n) (by omega)

/-- Value of a little-endian base-256 byte list. -/
def leToNat : List Nat → Nat
  | [] => 0
  | b :: bs => b + 256 * leToNat bs

/-- Fixed-width little-endian encoding on exactly `k` bytes. -/
def toLEFixed : Nat → Nat → List Nat
  | 0, _ => []
  | k + 1, v => (v % 256) :: toLEFixed k (v / 256)

/-- Reads exactly `k` bytes from the stream. -/
def readBytes : Nat → List Nat → Option (List Nat × List Nat)
  | 0, bs => some ([], bs)
  | _ + 1, [] => none
  | k + 1, b :: bs =>
    match readBytes k bs with
    | some (xs, rest) => some (b :: xs, rest)
    | none => none

/-- NEO variable-length unsigned integer encoding. -/
def varUInt (n : Nat) : List Nat :=
  if n < 0xFD then [n]
  else if n ≤ 0xFFFF then 0xFD :: toLEFixed 2 n
  else if n ≤ 0xFFFFFFFF then 0xFE :: toLEFixed 4 n
  else 0xFF :: toLEFixed 8 n

/-- Reads a NEO variable-length unsigned integer. -/
def readVarUInt : List Nat → Option (Nat × List Nat)
  | [] => none
  | b :: bs =>
    if b < 0xFD then some (b, bs)
    else
      match readBytes (if b = 0xFD then 2 else if b = 0xFE then 4 else 8) bs with
      | some (xs, rest) => some (leToNat xs, rest)
      | none => none

/-- Length-prefixed byte string. -/
def varBytes (bs : List Nat) : List Nat := varUInt bs.length ++ bs

/-- Reads a length-prefixed byte string. -/
def readVarBytes (bs : List Nat) : Option (List Nat × List Nat) :=
  match readVarUInt bs with
  | some (n, rest) => readBytes n rest
  | none => none

/-- Minimal-ish two's-complement little-endian encoding of an integer
(one spare sign byte; zero is the empty string). -/
def intToBytes (n : Int) : List Nat :=
  if n = 0 then []
  else
    let k := (natToLE n.natAbs).length + 1
    toLEFixed k (n.emod (2 ^ (8 * k))).toNat

/-- Two's-complement little-endian decoding of an integer. -/
def bytesToInt (bs : List Nat) : Int :=
  match bs.getLast? with
  | none => 0
  | some lastByte =>
    if lastByte < 128 then (leToNat bs : Int)
    else (leToNat bs : Int) - 2 ^ (8 * bs.length)

mutual

/-- Modelled from the spec: a stack item is serializable when it holds no
interop handle and respects the VM's resource bounds (integer bit-width
cap, `MaxItemSize` for byte strings, `MaxArraySize` for compound counts);
an inductive item can hold no cycle, so the spec's no-cycle condition is
automatic here. -/
def serializableItem : StackItem → Bool
  | .boolItem _ => true
  | .intItem n => checkBigIntSize n
  | .bytesItem bs => bs.length ≤ MaxItemSize
  | .arrayItem xs => xs.length ≤ MaxArraySize && serializableItems xs
  | .structItem xs => xs.length ≤ MaxArraySize && serializableItems xs
  | .mapItem kvs => kvs.length ≤ MaxArraySize && serializablePairs kvs
  | .interopItem _ => false

/-- Serializability of a list of items. -/
def serializableItems : List StackItem → Bool
  | [] => true
  | x :: xs => serializableItem x && serializableItems xs

/-- Serializability of a list of key/value pairs. -/
def serializablePairs : List (StackItem × StackItem) → Bool
  | [] => true
  | (k, v) :: kvs => serializableItem k && serializableItem v && serializablePairs kvs

end

mutual

/-- Modelled from the spec: `Runtime.Serialize` on a stack item; `none` is
a VM FAULT (interop handles are not serializable). -/
def serializeItem : StackItem → Option (List Nat)
  | .boolItem b => some [0x20, if b then 1 else 0]
  | .intItem n => some (0x21 :: varBytes (intToBytes n))
  | .bytesItem bs => some (0x28 :: varBytes bs)
  | .arrayItem xs =>
    match serializeItems xs with
    | some body => some (0x40 :: (varUInt xs.length ++ body))
    | none => none
  | .structItem xs =>
    match serializeItems xs with
    | some body => some (0x41 :: (varUInt xs.length ++ body))
    | none => none
  | .mapItem kvs =>
    match serializePairs kvs with
    | some body => some (0x48 :: (varUInt kvs.length ++ body))
    | none => none
  | .interopItem _ => none

/-- Serialization of consecutive items. -/
def serializeItems : List StackItem → Option (List Nat)
  | [] => some []
  | x :: xs =>
    match serializeItem x, serializeItems xs with
    | some bx, some bxs => some (bx ++ bxs)
    | _, _ => none

/-- Serialization of consecutive key/value pairs. -/
def serializePairs : List (StackItem × StackItem) → Option (List Nat)
  | [] => some []
  | (k, v) :: kvs =>
    match serializeItem k, serializeItem v, serializePairs kvs with
    | some bk, some bv, some bkvs => some (bk ++ (bv ++ bkvs))
    | _, _, _ => none

end

mutual

/-- Modelled from the spec: `Runtime.Deserialize`; the fuel argument only
serves termination and any value above the stream length is enough.  An
unknown tag byte is a FAULT (`TestDeserializeUnknown`). -/
def deserializeItem : Nat → List Nat → Option (StackItem × List Nat)
  | 0, _ => none
  | _ + 1, [] => none
  | fuel + 1, tag :: bs =>
    if tag = 0x20 then
      match bs with
      | b :: rest => some (.boolItem (decide (b ≠ 0)), rest)
      | [] => none
    else if tag = 0x21 then
      match readVarBytes bs with
      | some (payload, rest) => some (.intItem (bytesToInt payload), rest)
      | none => none
    else if tag = 0x28 then
      match readVarBytes bs with
      | some (payload, rest) => some (.bytesItem payload, rest)
      | none => none
    else if tag = 0x40 then
      match readVarUInt bs with
      | some (n, rest) =>
        match deserializeMany fuel n rest with
        | some (xs, rest2) => some (.arrayItem xs, rest2)
        | none => none
      | none => none
    else if tag = 0x41 then
      match readVarUInt bs with
      | some (n, rest) =>
        match deserializeMany fuel n rest with
        | some (xs, rest2) => some (.structItem xs, rest2)
        | none => none
      | none => none
    else if tag = 0x48 then
      match readVarUInt bs with
      | some (n, rest) =>
        match deserializePairs fuel n rest with
        | some (kvs, rest2) => some (.mapItem kvs, rest2)
        | none => none
      | none => none
    else none

/-- Deserialization of `n` consecutive items. -/
def deserializeMany : Nat → Nat → List Nat → Option (List StackItem × List Nat)
  | _, 0, bs => some ([], bs)
  | fuel, n + 1, bs =>
    match deserializeItem fuel bs with
    | some (x, rest) =>
      match deserializeMany fuel n rest with
      | some (xs, rest2) => some (x :: xs, rest2)
      | none => none
    | none => none

/-- Deserialization of `n` consecutive key/value pairs. -/
def deserializePairs : Nat → Nat → List Nat → Option (List (StackItem × StackItem) × List Nat)
  | _, 0, bs => some ([], bs)
  | fuel, n + 1, bs =>
    match deserializeItem fuel bs with
    | some (k, rest) =>
      match deserializeItem fuel rest with
      | some (v, rest2) =>
        match deserializePairs fuel n rest2 with
        | some (kvs, rest3) => some ((k, v) :: kvs, rest3)
        | none => none
      | none => none
    | none => none

end

/-- Modelled from the spec: the deserialization entry point; a stream of
length `L` can hold at most `L` nesting levels, so `L + 1` fuel is enough
for any decodable stream. -/
def runtimeDeserialize (bs : List Nat) : Option StackItem :=
  match deserializeItem (bs.length + 1) bs with
  | some (x, _) => some x
  | none => none

/-! ## Cyclic compound items (modelled)

Modelled from the spec: "Compound items (array/struct/map) can reference
each other; serialization must detect cycles (FAULT on attempt) ...
arena-indexed handles".  The arena is a list of nodes; a reference is a
primitive item or a node index; serialization keeps the set of nodes on the
current path and faults on a revisit, as in `TestSerializeArrayBad`. -/

/-- Modelled from the spec: a reference into the compound-item arena. -/
inductive GRef where
  | prim (p : StackItem)
  | node (i : Nat)

/-- Modelled from the spec: an arena node (tag byte plus children). -/
structure GNode where
  tag : Nat
  children : List GRef

mutual

/-- Modelled from the spec: serialization over the arena with cycle
detection via the visited set. -/
def serializeGRef (g : List GNode) : Nat → List Nat → GRef → Option (List Nat)
  | 0, _, _ => none
  | _ + 1, _, .prim p => serializeItem p
  | fuel + 1, visited, .node i =>
    if i ∈ visited then none
    else
      match g[i]? with
      | some nd =>
        match serializeGRefs g fuel (i :: visited) nd.children with
        | some body => some (nd.tag :: (varUInt nd.children.length ++ body))
        | none => none
      | none => none

/-- Serialization of consecutive arena references. -/
def serializeGRefs (g : List GNode) : Nat → List Nat → List GRef → Option (List Nat)
  | _, _, [] => some []
  | fuel, visited, r :: rs =>
    match serializeGRef g fuel visited r, serializeGRefs g fuel visited rs with
    | some br, some brs => some (br ++ brs)
    | _, _ => none

end

/-- Entry point for arena serialization. -/
def serializeGRefTop (g : List GNode) (r : GRef) : Option (List Nat) :=
  serializeGRef g (g.length + 1) [] r

/-- The self-referencing two-element array of `TestSerializeArrayBad`:
`item.value[1] = item`. -/
def cyclicArrayArena : List GNode :=
  [{ tag := 0x40, children := [.prim (.boolItem false), .node 0] }]

/-! ## Map value enumeration (`TestIteratorValues`)

Modelled from the spec and `src/unnamed/part_003` lines 559-586: the
`Neo.Iterator.Create` / `Neo.Iterator.Values` syscalls enumerate a map's
values in the backing Go map's iteration order, which the test itself
treats as unspecified ("Map values can be enumerated in any order"): the
order is some permutation of the entry list, not a fixed function of the
map's contents. -/

/-- Modelled from the spec: the value sequence produced by
`Neo.Iterator.Values` when the backing map yields its entries in the given
order. -/
def iteratorValuesOutput (entries : List (StackItem × StackItem)) : List StackItem :=
  entries.map Prod.snd

/-- The final evaluation stack (top first) left by the test's
`getEnumeratorProg` driver: a `false` from the final `Next`, preceded in
stack order by each enumerated value (latest on top) paired with the
`true` of the `Next` that produced it. -/
def enumeratorProgStack (values : List StackItem) : List StackItem :=
  .boolItem false :: (values.reverse.map (fun v => [v, .boolItem true])).flatten

/-! ## Stack-size accounting (modelled)

Modelled from the spec: "Total live item count on all stacks combined ≤
MaxStackSize (≈ 2048)" and "Every instruction updates a live-count counter
reflecting items reachable from any stack frame including alt stacks and
inside compound items", calibrated against `TestStackLimitPUSH1Bad` and
`TestStackLimitAPPENDStructBad`.  Stack items are value trees here, so
every reachable node is its own object and identity-based once-counting
degenerates to counting every node. -/

/-- Modelled from the spec: the cap on the number of live stack items. -/
def MaxStackSize : Nat := 2048

mutual

/-- Modelled from the spec: the number of live items an item accounts for —
itself plus everything inside compound items. -/
def itemCount : StackItem → Nat
  | .boolItem _ => 1
  | .intItem _ => 1
  | .bytesItem _ => 1
  | .arrayItem xs => 1 + itemCountList xs
  | .structItem xs => 1 + itemCountList xs
  | .mapItem kvs => 1 + itemCountPairs kvs
  | .interopItem _ => 1

/-- Live-item count of a list of items. -/
def itemCountList : List StackItem → Nat
  | [] => 0
  | x :: xs => itemCount x + itemCountList xs

/-- Live-item count of a list of key/value pairs. -/
def itemCountPairs : List (StackItem × StackItem) → Nat
  | [] => 0
  | (k, v) :: kvs => itemCount k + itemCount v + itemCountPairs kvs

end

/-- The VM's evaluation stack and alt stack (top of stack first). -/
structure VMStacks where
  estack : List StackItem
  astack : List StackItem

/-- Total live item count across both stacks, compound contents included. -/
def totalCount (s : VMStacks) : Nat :=
  itemCountList s.estack + itemCountList s.astack

/-- Modelled from the spec: the fragment of the opcode set exercised by the
stack-limit tests (pushes, DROP, DUP, SWAP, TOALTSTACK, FROMALTSTACK,
NEWSTRUCT, PACK, APPEND).  `append` models the value-semantics analogue of
the in-place APPEND: it pushes the extended compound. -/
inductive Instr where
  | push (x : StackItem)
  | drop
  | dup
  | swap
  | toalt
  | fromalt
  | newstruct
  | pack
  | append

/-- Modelled from the spec: the raw semantics of one instruction on the two
stacks; `none` is a non-size fault (stack underflow or type mismatch). -/
def execInstr : Instr → VMStacks → Option VMStacks
  | .push x, s => some { s with estack := x :: s.estack }
  | .drop, s =>
    match s.estack with
    | _ :: tl => some { s with estack := tl }
    | [] => none
  | .dup, s =>
    match s.estack with
    | x :: tl => some { s with estack := x :: x :: tl }
    | [] => none
  | .swap, s =>
    match s.estack with
    | x :: y :: tl => some { s with estack := y :: x :: tl }
    | _ => none
  | .toalt, s =>
    match s.estack with
    | x :: tl => some { estack := tl, astack := x :: s.astack }
    | [] => none
  | .fromalt, s =>
    match s.astack with
    | x :: tl => some { estack := x :: s.estack, astack := tl }
    | [] => none
  | .newstruct, s =>
    match s.estack with
    | .intItem n :: tl =>
      if 0 ≤ n ∧ n ≤ (MaxArraySize : Int) then
        some { s with estack := .structItem (List.replicate n.toNat (.boolItem false)) :: tl }
      else none
    | _ => none
  | .pack, s =>
    match s.estack with
    | .intItem n :: tl =>
      if 0 ≤ n ∧ n.toNat ≤ tl.length then
        some { s with estack := .arrayItem (tl.take n.toNat) :: tl.drop n.toNat }
      else none
    | _ => none
  | .append, s =>
    match s.estack with
    | x :: .arrayItem xs :: tl => some { s with estack := .arrayItem (xs ++ [x]) :: tl }
    | x :: .structItem xs :: tl => some { s with estack := .structItem (xs ++ [x]) :: tl }
    | _ => none

/-- The reason a step faults. -/
inductive FaultReason where
  | stackOverflow
  | invalidOp
deriving DecidableEq, Repr

/-- Result of one checked VM step. -/
inductive StepResult where
  | ok (s : VMStacks)
  | fault (r : FaultReason)

/-- Modelled from the spec: one checked step — execute the instruction and
fault with `stackOverflow` if the live count now exceeds `MaxStackSize`. -/
def stepVM (i : Instr) (s : VMStacks) : StepResult :=
  match execInstr i s with
  | none => .fault .invalidOp
  | some s2 => if MaxStackSize < totalCount s2 then .fault .stackOverflow else .ok s2

/-- Result of running a whole program. -/
inductive RunResult where
  | halt (s : VMStacks)
  | fault (r : FaultReason)

/-- Modelled from the spec: run the program to completion; a fault is
absorbing. -/
def runProg : List Instr → VMStacks → RunResult
  | [], s => .halt s
  | i :: rest, s =>
    match stepVM i s with
    | .ok s2 => runProg rest s2
    | .fault r => .fault r

/-- Whether every step of the program keeps the live item count within
`MaxStackSize` (a step that faults for a non-size reason stops the run and
is counted as within bounds). -/
def keepsBound : List Instr → VMStacks → Bool
  | [], _ => true
  | i :: rest, s =>
    match execInstr i s with
    | none => true
    | some s2 => decide (totalCount s2 ≤ MaxStackSize) && keepsBound rest s2

/-! ## Core state types (pkg/core/transaction.go and its collaborators)

`transaction.go` is under `src/`; the `state`, `dao` and `transaction`
packages it uses are not, so their struct shapes and accessors are
modelled from the spec's data model ("UnspentCoinState — per-output:
spent/claimed flag bits, spend height, original output", "AccountState —
... per-asset list of unspent balance entries, unclaimed balance table")
and from the fields the source reads and writes.  Hashes (`Uint256`,
`Uint160`) are abstracted as naturals; Go maps become association lists;
`Fixed8` amounts are `Int`. -/

/-- Modelled from the spec: the `state.CoinSpent` flag bit. -/
def CoinSpent : Nat := 2

/-- Modelled from the spec: the `state.CoinClaimed` flag bit. -/
def CoinClaimed : Nat := 4

/-- A transaction output (`transaction.Output`): asset, amount, recipient
script hash. -/
structure TXOutput where
  assetID : Nat
  amount : Int
  scriptHash : Nat
deriving DecidableEq, Repr, Inhabited

/-- One entry of `UnspentCoin.States`: flag bits, spend height and the
original output (the Go struct embeds the output, promoting its
`ScriptHash` field). -/
structure CoinState where
  state : Nat
  spendHeight : Nat
  output : TXOutput
deriving DecidableEq, Repr, Inhabited

/-- The `state.UnspentCoin` record for one transaction hash. -/
structure UnspentCoin where
  height : Nat
  states : List CoinState
deriving DecidableEq, Repr, Inhabited

/-- One `state.UnclaimedBalance` entry (`Tx`, `Index`, `Start`, `End`,
`Value`); `End` is rendered `stop`. -/
structure UnclaimedBalance where
  tx : Nat
  index : Nat
  start : Nat
  stop : Nat
  value : Int
deriving DecidableEq, Repr, Inhabited

/-- One `state.UnspentBalance` entry of an account's per-asset balance
list. -/
structure UnspentBalance where
  tx : Nat
  index : Nat
  value : Int
deriving DecidableEq, Repr, Inhabited

/-- The `state.Account` fields used by `transaction.go`: script hash,
votes, per-asset unspent balances (a Go map rendered as an association
list) and the unclaimed-balance table. -/
structure AccountState where
  scriptHash : Nat
  votes : List Nat
  balances : List (Nat × List UnspentBalance)
  unclaimed : List UnclaimedBalance
deriving DecidableEq, Repr, Inhabited

/-- A transaction input (`transaction.Input`): previous transaction hash
and output index. -/
structure TxInput where
  prevHash : Nat
  prevIndex : Nat
deriving DecidableEq, Repr, Inhabited

/-- VM execution states as observed by `transaction.go` (`v.State()`). -/
inductive VMState where
  | noneSt
  | haltSt
  | faultSt
  | breakSt
deriving DecidableEq, Repr

/-- A runtime notification recorded by the interop context. -/
structure NotificationEvent where
  scriptHash : Nat
  item : StackItem

/-- The `state.AppExecResult` stored for every invocation transaction. -/
structure AppExecResult where
  txHash : Nat
  trigger : Nat
  vmState : VMState
  gasConsumed : Int
  stack : List StackItem
  events : List NotificationEvent

/-- One recorded NEP5 transfer (the observable effect of
`processNEP5Transfer`, which is not under `src/`). -/
structure NEP5Transfer where
  assetScriptHash : Nat
  txHash : Nat
  fromAddr : List Nat
  toAddr : List Nat
  amount : Int

/-- Association-list lookup (Go map read). -/
def lookupA {α : Type} : List (Nat × α) → Nat → Option α
  | [], _ => none
  | (k, v) :: rest, key => if k = key then some v else lookupA rest key

/-- Association-list insert-or-replace (Go map write / DAO put). -/
def insertA {α : Type} : List (Nat × α) → Nat → α → List (Nat × α)
  | [], key, v => [(key, v)]
  | (k, w) :: rest, key, v =>
    if k = key then (key, v) :: rest else (k, w) :: insertA rest key v

/-- Association-list delete (Go `delete`). -/
def removeA {α : Type} : List (Nat × α) → Nat → List (Nat × α)
  | [], _ => []
  | (k, w) :: rest, key => if k = key then rest else (k, w) :: removeA rest key

/-- The `cachedDao` view `transaction.go` works against, modelled as plain
association lists (the storage backend is assumed healthy, so reads and
writes are total; a missing key on `GetUnspentCoinState` /
`GetAccountState` is reported as `none`, matching the Go DAO's not-found
error). -/
structure Dao where
  unspents : List (Nat × UnspentCoin)
  accounts : List (Nat × AccountState)
  validators : List (Nat × Int)
  appExecResults : List AppExecResult
  storage : List (Nat × Nat)
  nep5transfers : List NEP5Transfer

/-- `cache.GetUnspentCoinState`. -/
def Dao.getUnspentCoinState (d : Dao) (hash : Nat) : Option UnspentCoin :=
  lookupA d.unspents hash

/-- `cache.PutUnspentCoinState`. -/
def Dao.putUnspentCoinState (d : Dao) (hash : Nat) (u : UnspentCoin) : Dao :=
  { d with unspents := insertA d.unspents hash u }

/-- `cache.GetAccountState` (missing key is an error in Go, `none` here). -/
def Dao.getAccountState (d : Dao) (sh : Nat) : Option AccountState :=
  lookupA d.accounts sh

/-- `cache.GetAccountStateOrNew`: an absent account is created empty. -/
def Dao.getAccountStateOrNew (d : Dao) (sh : Nat) : AccountState :=
  match lookupA d.accounts sh with
  | some a => a
  | none => { scriptHash := sh, votes := [], balances := [], unclaimed := [] }

/-- `cache.PutAccountState` (keyed by the account's script hash). -/
def Dao.putAccountState (d : Dao) (a : AccountState) : Dao :=
  { d with accounts := insertA d.accounts a.scriptHash a }

/-- `cache.PutAppExecResult`. -/
def Dao.putAppExecResult (d : Dao) (aer : AppExecResult) : Dao :=
  { d with appExecResults := d.appExecResults ++ [aer] }

/-- Modelled from the spec: the protocol's fixed governing-token identity
(`GoverningTokenID()`). -/
def GoverningTokenID : Nat := 1

/-- Modelled from the spec: `processTXWithValidatorsSubtract` subtracts the
spent governing-token output's amount from the voting weight of every
validator the owning account votes for. -/
def processTXWithValidatorsSubtract (output : TXOutput) (acc : AccountState)
    (d : Dao) : Dao :=
  { d with validators :=
      (d.validators.map (fun pv =>
        if pv.1 ∈ acc.votes then (pv.1, pv.2 - output.amount) else pv)) }

/-- Embeds `processTXInput` (src/pkg/core/transaction.go lines 19-70):
check the referenced output exists and is unspent, mark it spent at the
block's height, then update the owner account (unclaimed entry and
validator subtraction for the governing token, swap-removal of the spent
balance entry) and store it. -/
def processTXInput (input : TxInput) (unspent : UnspentCoin) (blockIndex : Nat)
    (cache : Dao) : Except String (UnspentCoin × Dao) :=
  if unspent.states.length ≤ input.prevIndex then
    .error "bad input"
  else if (unspent.states.getD input.prevIndex default).state &&& CoinSpent ≠ 0 then
    .error "double spend"
  else
    let st0 := unspent.states.getD input.prevIndex default
    let st1 := { st0 with state := st0.state ||| CoinSpent, spendHeight := blockIndex }
    let unspent1 := { unspent with states := unspent.states.set input.prevIndex st1 }
    let prevOut := st0.output
    let account0 := cache.getAccountStateOrNew prevOut.scriptHash
    let accountAndCache :=
      if prevOut.assetID = GoverningTokenID then
        let acc := { account0 with unclaimed := account0.unclaimed ++
          [{ tx := input.prevHash, index := input.prevIndex, start := unspent.height,
             stop := blockIndex, value := prevOut.amount }] }
        (acc, processTXWithValidatorsSubtract prevOut acc cache)
      else (account0, cache)
    let account1 := accountAndCache.1
    let cache1 := accountAndCache.2
    let bs := (lookupA account1.balances prevOut.assetID).getD []
    let account2 :=
      if bs.length ≤ 1 then
        { account1 with balances := removeA account1.balances prevOut.assetID }
      else
        match bs.findIdx? (fun b => b.tx = input.prevHash ∧ b.index = input.prevIndex) with
        | some idx =>
          let last := bs.length - 1
          let bs1 := if idx < last then bs.set idx (bs.getD last default) else bs
          { account1 with balances := insertA account1.balances prevOut.assetID (bs1.take last) }
        | none => account1
    .ok (unspent1, cache1.putAccountState account2)

/-- Removes the first `UnclaimedBalance` entry matching `(tx, index)`
(`state.UnclaimedBalances.Remove`); `none` when no entry matches (the Go
method returns `changed = false`). -/
def removeFirstUB : List UnclaimedBalance → Nat → Nat → Option (List UnclaimedBalance)
  | [], _, _ => none
  | u :: rest, tx, idx =>
    if u.tx = tx ∧ u.index = idx then some rest
    else
      match removeFirstUB rest tx idx with
      | some rest2 => some (u :: rest2)
      | none => none

/-- Result of one iteration of the claim loop: the claim was applied, it
was a false-or-double claim (logged), or a hard error (missing account)
that fails the block in either mode. -/
inductive ClaimStepResult where
  | accepted (d : Dao)
  | badClaim (e : String)
  | hardError (e : String)

/-- Whether the step accepted the claim. -/
def ClaimStepResult.isAccepted : ClaimStepResult → Bool
  | .accepted _ => true
  | _ => false

/-- Embeds one iteration of the claim loop in `processClaimTX`
(src/pkg/core/transaction.go lines 151-195): the reference is bad when the
unspent-coin state is missing, the index is out of range, or the claimed
bit is already set (the spent bit is never examined); otherwise the owner
account is fetched (missing account is a hard error), the claimed bit is
set and stored, and the matching unclaimed entry, if any, is removed from
the account (a missing entry is only logged). -/
def processClaimInput (cache : Dao) (input : TxInput) : ClaimStepResult :=
  match cache.getUnspentCoinState input.prevHash with
  | none => .badClaim "missing unspent coin state"
  | some scs =>
    if scs.states.length ≤ input.prevIndex then .badClaim "invalid claim index"
    else if (scs.states.getD input.prevIndex default).state &&& CoinClaimed ≠ 0 then
      .badClaim "double claim"
    else
      match cache.getAccountState (scs.states.getD input.prevIndex default).output.scriptHash with
      | none => .hardError "missing account"
      | some acc =>
        let st0 := scs.states.getD input.prevIndex default
        let scs1 := { scs with states :=
          (scs.states.set input.prevIndex { st0 with state := st0.state ||| CoinClaimed }) }
        let cache1 := cache.putUnspentCoinState input.prevHash scs1
        match removeFirstUB acc.unclaimed input.prevHash input.prevIndex with
        | none => .accepted cache1
        | some ub2 => .accepted (cache1.putAccountState { acc with unclaimed := ub2 })

/-- Embeds `processClaimTX` (src/pkg/core/transaction.go lines 148-197):
iterate the claim references in order; a bad claim is logged, fails the
block when `VerifyTransactions` (strict mode) is set, and otherwise
`break`s out of the loop, returning `nil` with the cache as accumulated so
far; a hard error fails the block in either mode. -/
def processClaimTX (strict : Bool) (cache : Dao) : List TxInput → Except String Dao
  | [] => .ok cache
  | input :: rest =>
    match processClaimInput cache input with
    | .accepted cache2 => processClaimTX strict cache2 rest
    | .badClaim e => if strict then .error e else .ok cache
    | .hardError e => .error e

/-! ## processInvocationTX (src/pkg/core/transaction.go lines 199-258)

The VM run itself (spawn, load script, `Run`) happens outside this file's
sources, so it is a parameter: a function from the configured gas limit to
the observable outcome (terminal state, gas consumed, final stack,
notifications, staged DAO storage delta). -/

/-- `trigger.Application` (src/unnamed/part_000: `Application = 16`). -/
def triggerApplication : Nat := 16

/-- Go `int64` wrap-around addition (`Fixed8` is an `int64`). -/
def int64Add (a b : Int) : Int := (a + b + 2 ^ 63) % 2 ^ 64 - 2 ^ 63

/-- Go `int64` truncation of a `big.Int` (`amount.Int64()`). -/
def int64Of (n : Int) : Int := (n + 2 ^ 63) % 2 ^ 64 - 2 ^ 63

/-- Embeds the gas-limit setup of `processInvocationTX` (lines 205-207):
only when `FreeGasLimit > 0` is a limit set, to `FreeGasLimit + t.Gas`;
otherwise the VM runs without a gas limit (`none`). -/
def invocationGasLimit (freeGasLimit txGas : Int) : Option Int :=
  if 0 < freeGasLimit then some (int64Add freeGasLimit txGas) else none

/-- The outcome of the abstracted VM run inside `processInvocationTX`. -/
structure VMRunOutcome where
  state : VMState
  gasConsumed : Int
  stack : List StackItem
  notifications : List NotificationEvent
  daoDelta : List (Nat × Nat)

/-- `v.HasFailed()`: the run ended in FAULT. -/
def VMRunOutcome.hasFailed (o : VMRunOutcome) : Bool := o.state = VMState.faultSt

/-- `systemInterop.dao.Persist()`: merge the staged storage writes into the
cache. -/
def persistDelta (cache : Dao) (delta : List (Nat × Nat)) : Dao :=
  { cache with storage := delta.foldl (fun st kv => insertA st kv.1 kv.2) cache.storage }

/-- Modelled from the spec: `processNEP5Transfer` updates the NEP5 balance
index; its observable effect here is the recorded transfer. -/
def processNEP5Transfer (cache : Dao) (txHash sh : Nat) (fromA toA : List Nat)
    (amount : Int) : Dao :=
  { cache with nep5transfers := cache.nep5transfers ++
      [{ assetScriptHash := sh, txHash := txHash, fromAddr := fromA, toAddr := toA,
         amount := amount }] }

/-- The byte string `"transfer"`. -/
def transferOpBytes : List Nat := [116, 114, 97, 110, 115, 102, 101, 114]

/-- Embeds the notification scan of `processInvocationTX` (lines 215-241):
a notification counts as an NEP5 transfer when its item is a 4-element
array whose head is the byte string `"transfer"` followed by byte-string
from and to and an integer (or byte-string, read little-endian) amount;
anything else is skipped. -/
def scanTransferNote (cache : Dao) (txHash : Nat) (note : NotificationEvent) : Dao :=
  match note.item with
  | .arrayItem [op, fromI, toI, amountI] =>
    match op with
    | .bytesItem opb =>
      if opb = transferOpBytes then
        match fromI with
        | .bytesItem fromb =>
          match toI with
          | .bytesItem tob =>
            match amountI with
            | .intItem amt =>
              processNEP5Transfer cache txHash note.scriptHash fromb tob (int64Of amt)
            | .bytesItem ab =>
              processNEP5Transfer cache txHash note.scriptHash fromb tob
                (int64Of (bytesToInt ab))
            | _ => cache
          | _ => cache
        | _ => cache
      else cache
    | _ => cache
  | _ => cache

/-- Embeds `processInvocationTX` (src/pkg/core/transaction.go lines
199-258) with the VM run abstracted: run under the configured gas limit;
when the VM has not failed, persist the staged DAO delta and scan the
notifications for NEP5 transfers; in either case store an `AppExecResult`
carrying the terminal state, gas consumed, stack and notifications, and
return without error (the FAULT branch only logs). -/
def processInvocationTX (freeGasLimit txGas : Int) (txHash : Nat)
    (run : Option Int → VMRunOutcome) (cache : Dao) : Except String Dao :=
  let outcome := run (invocationGasLimit freeGasLimit txGas)
  let cache1 :=
    if outcome.hasFailed then cache
    else
      (outcome.notifications.foldl (fun c note => scanTransferNote c txHash note)
        (persistDelta cache outcome.daoDelta))
  let aer : AppExecResult :=
    { txHash := txHash, trigger := triggerApplication, vmState := outcome.state,
      gasConsumed := outcome.gasConsumed, stack := outcome.stack,
      events := outcome.notifications }
  .ok (cache1.putAppExecResult aer)

/-- Each stored account sits under its own script hash (well-keyed DAO);
`transaction.go` maintains this because `PutAccountState` keys by the
account's hash. -/
def accountsWellKeyed (d : Dao) : Bool :=
  d.accounts.all (fun p => p.2.scriptHash = p.1)

/-- The number of unclaimed entries matching `(tx, index)`. -/
def countMatchingUB (l : List UnclaimedBalance) (tx idx : Nat) : Nat :=
  (l.filter (fun u => u.tx = tx ∧ u.index = idx)).length

/-- The empty DAO, used by the concrete examples. -/
def emptyDao : Dao :=
  { unspents := [], accounts := [], validators := [], appExecResults := [],
    storage := [], nep5transfers := [] }

/-- A DAO holding one spent-but-unclaimed governing-token output `(5, 0)`
owned by account `7`, with its matching unclaimed-balance entry: the
normal claim scenario. -/
def claimDemoDao : Dao :=
  { unspents := [(5, { height := 3, states := [{ state := CoinSpent, spendHeight := 8, output := { assetID := GoverningTokenID, amount := 100, scriptHash := 7 } }] })],
    accounts := [(7, { scriptHash := 7, votes := [], balances := [], unclaimed := [{ tx := 5, index := 0, start := 3, stop := 8, value := 100 }] })],
    validators := [], appExecResults := [], storage := [], nep5transfers := [] }

/-- A DAO whose governing-token output `(5, 0)` is completely unspent (and
unclaimed), owned by account `7`. -/
def unspentClaimDao : Dao :=
  { unspents := [(5, { height := 3, states := [{ state := 0, spendHeight := 0, output := { assetID := GoverningTokenID, amount := 100, scriptHash := 7 } }] })],
    accounts := [(7, { scriptHash := 7, votes := [], balances := [], unclaimed := [] })],
    validators := [], appExecResults := [], storage := [], nep5transfers := [] }

end NeoGo

namespace NeoGo

/-! # Theorems -/

/-! ## Byte-level codec lemmas -/

theorem toLEFixed_length (k v : Nat) : (toLEFixed k v).length = k := by
  induction k generalizing v with
  | zero => rfl
  | succ k IH => simp [toLEFixed, IH]

theorem leToNat_toLEFixed (k v : Nat) (h : v < 2 ^ (8 * k)) :
    leToNat (toLEFixed k v) = v := by
  induction k generalizing v with
  | zero =>
    simp only [Nat.mul_zero, pow_zero] at h
    have hv : v = 0 := by omega
    subst hv; rfl
  | succ k IH =>
    have hpow : 2 ^ (8 * (k + 1)) = 2 ^ (8 * k) * 256 := by
      rw [Nat.mul_succ, pow_add]; norm_num
    have hdiv : v / 256 < 2 ^ (8 * k) := by
      rw [hpow] at h
      exact Nat.div_lt_of_lt_mul (by omega)
    simp only [toLEFixed, leToNat, IH (v / 256) hdiv]
    omega

theorem toLEFixed_succ_snoc (k v : Nat) :
    toLEFixed (k + 1) v = toLEFixed k v ++ [v / 2 ^ (8 * k) % 256] := by
  induction k generalizing v with
  | zero => simp [toLEFixed]
  | succ k IH =>
    have h1 : toLEFixed (k + 2) v = (v % 256) :: toLEFixed (k + 1) (v / 256) := rfl
    have h2 : v / 256 / 2 ^ (8 * k) = v / 2 ^ (8 * (k + 1)) := by
      rw [Nat.div_div_eq_div_mul, Nat.mul_succ, pow_add]
      ring_nf
    rw [h1, IH (v / 256), h2]
    rfl

theorem toLEFixed_getLast (k v : Nat) :
    (toLEFixed (k + 1) v).getLast? = some (v / 2 ^ (8 * k) % 256) := by
  rw [toLEFixed_succ_snoc]
  exact List.getLast?_concat _

theorem readBytes_append (xs rest : List Nat) :
    readBytes xs.length (xs ++ rest) = some (xs, rest) := by
  induction xs with
  | nil => rfl
  | cons b bs IH => simp [readBytes, IH]

theorem readBytes_toLEFixed (k v : Nat) (rest : List Nat) :
    readBytes k (toLEFixed k v ++ rest) = some (toLEFixed k v, rest) := by
  have h := readBytes_append (toLEFixed k v) rest
  rwa [toLEFixed_length] at h

theorem readVarUInt_varUInt (n : Nat) (h : n < 2 ^ 64) (rest : List Nat) :
    readVarUInt (varUInt n ++ rest) = some (n, rest) := by
  by_cases h1 : n < 0xFD
  · simp [varUInt, readVarUInt, h1]
  · by_cases h2 : n ≤ 0xFFFF
    · simp only [varUInt, if_neg h1, if_pos h2, List.cons_append, readVarUInt]
      norm_num
      rw [readBytes_toLEFixed]
      show some (leToNat (toLEFixed 2 n), rest) = some (n, rest)
      rw [leToNat_toLEFixed 2 n (by norm_num; omega)]
    · by_cases h3 : n ≤ 0xFFFFFFFF
      · simp only [varUInt, if_neg h1, if_neg h2, if_pos h3, List.cons_append, readVarUInt]
        norm_num
        rw [readBytes_toLEFixed]
        show some (leToNat (toLEFixed 4 n), rest) = some (n, rest)
        rw [leToNat_toLEFixed 4 n (by norm_num; omega)]
      · simp only [varUInt, if_neg h1, if_neg h2, if_neg h3, List.cons_append, readVarUInt]
        norm_num
        rw [readBytes_toLEFixed]
        show some (leToNat (toLEFixed 8 n), rest) = some (n, rest)
        rw [leToNat_toLEFixed 8 n (by norm_num; omega)]

theorem readVarBytes_varBytes (bs : List Nat) (h : bs.length < 2 ^ 64) (rest : List Nat) :
    readVarBytes (varBytes bs ++ rest) = some (bs, rest) := by
  simp only [varBytes, readVarBytes, List.append_assoc,
    readVarUInt_varUInt bs.length h (bs ++ rest)]
  exact readBytes_append bs rest

theorem varUInt_length_pos (n : Nat) : 1 ≤ (varUInt n).length := by
  by_cases h1 : n < 0xFD
  · simp [varUInt, h1]
  · by_cases h2 : n ≤ 0xFFFF <;> by_cases h3 : n ≤ 0xFFFFFFFF <;>
      simp [varUInt, h1, h2, h3]

theorem natToLE_lt (m : Nat) : m < 2 ^ (8 * (natToLE m).length) := by
  induction m using Nat.strong_induction_on with
  | _ m IH =>
    match m with
    | 0 => simp [natToLE]
    | m + 1 =>
      rw [natToLE]
      have hdiv : (m + 1) / 256 < m + 1 := Nat.div_lt_self (Nat.succ_pos m) (by omega)
      have h := IH ((m + 1) / 256) hdiv
      have hpow : 2 ^ (8 * ((natToLE ((m + 1) / 256)).length + 1)) =
          2 ^ (8 * (natToLE ((m + 1) / 256)).length) * 256 := by
        rw [Nat.mul_succ, pow_add]; norm_num
      simp only [List.length_cons, hpow]
      omega

theorem natToLE_length_le (m k : Nat) (h : m < 2 ^ (8 * k)) :
    (natToLE m).length ≤ k := by
  induction m using Nat.strong_induction_on generalizing k with
  | _ m IH =>
    match m with
    | 0 => simp [natToLE]
    | m + 1 =>
      rw [natToLE]
      match k with
      | 0 => simp at h
      | k + 1 =>
        have hdiv : (m + 1) / 256 < m + 1 := Nat.div_lt_self (Nat.succ_pos m) (by omega)
        have hpow : 2 ^ (8 * (k + 1)) = 2 ^ (8 * k) * 256 := by
          rw [Nat.mul_succ, pow_add]; norm_num
        have hlt : (m + 1) / 256 < 2 ^ (8 * k) := by
          rw [hpow] at h
          exact Nat.div_lt_of_lt_mul (by omega)
        have := IH ((m + 1) / 256) hdiv k hlt
        simp only [List.length_cons]
        omega

theorem bytesToInt_intToBytes (n : Int) : bytesToInt (intToBytes n) = n := by
  by_cases h0 : n = 0
  · subst h0; rfl
  · have hm1 : 1 ≤ n.natAbs := by
      rcases Int.natAbs_eq n with h | h <;> omega
    set L := (natToLE n.natAbs).length with hL
    have hmlt : n.natAbs < 2 ^ (8 * L) := natToLE_lt n.natAbs
    have hpow : 2 ^ (8 * (L + 1)) = 2 ^ (8 * L) * 256 := by
      rw [Nat.mul_succ, pow_add]; norm_num
    simp only [intToBytes, if_neg h0, ← hL]
    rcases lt_or_gt_of_ne h0 with hneg | hpos
    · -- negative case
      have hbound : (0 : Int) ≤ n + 2 ^ (8 * (L + 1)) := by
        have : (n.natAbs : Int) < (2 : Int) ^ (8 * (L + 1)) := by
          have h1 : ((2 : Nat) ^ (8 * (L + 1)) : Int) = (2 : Int) ^ (8 * (L + 1)) := by
            push_cast; ring
          have h2 : (n.natAbs : Int) < ((2 : Nat) ^ (8 * (L + 1)) : Int) := by
            exact_mod_cast lt_of_lt_of_le hmlt (by rw [hpow]; exact Nat.le_mul_of_pos_right _ (by norm_num))
          rw [h1] at h2; exact h2
        omega
      have hemod : n.emod (2 ^ (8 * (L + 1))) = n + 2 ^ (8 * (L + 1)) := by
        have h1 : (n + 2 ^ (8 * (L + 1))).emod (2 ^ (8 * (L + 1))) =
            n.emod (2 ^ (8 * (L + 1))) := by
          have h2 := Int.add_mul_emod_self_left n (2 ^ (8 * (L + 1))) 1
          rw [mul_one] at h2
          exact h2
        rw [← h1]
        exact Int.emod_eq_of_lt hbound (by omega)
      set v := (n.emod (2 ^ (8 * (L + 1)))).toNat with hv
      have hvval : (v : Int) = n + 2 ^ (8 * (L + 1)) := by
        rw [hv, hemod]; exact Int.toNat_of_nonneg hbound
      have hvNat : v = 2 ^ (8 * (L + 1)) - n.natAbs := by
        have habs : (n.natAbs : Int) = -n := by
          rcases Int.natAbs_eq n with h | h <;> omega
        have hcast : ((2 ^ (8 * (L + 1)) : Nat) : Int) = (2 : Int) ^ (8 * (L + 1)) := by
          push_cast; ring
        omega
      have hvlt : v < 2 ^ (8 * (L + 1)) := by omega
      have hvge : 255 * 2 ^ (8 * L) ≤ v := by
        rw [hvNat, hpow]; omega
      have hdivv : v / 2 ^ (8 * L) = 255 := by
        have hhi : v < 256 * 2 ^ (8 * L) := by rw [hpow] at hvlt; omega
        have hlo : 255 * 2 ^ (8 * L) ≤ v := hvge
        exact Nat.div_eq_of_lt_le (by omega) (by omega)
      simp only [bytesToInt, toLEFixed_getLast, hdivv]
      norm_num
      rw [leToNat_toLEFixed (L + 1) v hvlt, toLEFixed_length]
      rw [show ((v : Int)) = n + 2 ^ (8 * (L + 1)) from hvval]
      ring
    · -- positive case
      have hnv : n.emod (2 ^ (8 * (L + 1))) = n := by
        apply Int.emod_eq_of_lt (by omega)
        have : (n.natAbs : Int) < (2 : Int) ^ (8 * (L + 1)) := by
          have h2 : n.natAbs < 2 ^ (8 * (L + 1)) := lt_of_lt_of_le hmlt (by rw [hpow]; exact Nat.le_mul_of_pos_right _ (by norm_num))
          exact_mod_cast h2
        omega
      set v := (n.emod (2 ^ (8 * (L + 1)))).toNat with hv
      have hvval : v = n.natAbs := by
        rw [hv, hnv]
        omega
      have hdivv : v / 2 ^ (8 * L) = 0 := Nat.div_eq_of_lt (by omega)
      simp only [bytesToInt, toLEFixed_getLast, hdivv]
      norm_num
      rw [leToNat_toLEFixed (L + 1) v (by rw [hpow]; omega)]
      omega

theorem intToBytes_length_le (n : Int) (h : checkBigIntSize n = true) :
    (intToBytes n).length ≤ 33 := by
  by_cases h0 : n = 0
  · subst h0; simp [intToBytes]
  · simp only [intToBytes, if_neg h0, toLEFixed_length]
    have hlt : n.natAbs < 2 ^ (8 * 32) := by
      simp only [checkBigIntSize, MaxBigIntegerSizeBits, decide_eq_true_eq] at h
      exact lt_of_lt_of_le h (by norm_num)
    have := natToLE_length_le n.natAbs 32 hlt
    omega

/-- C10: `SetTimestamp` followed by `Timestamp` on a consensus
prepareRequest rounds the 64-bit input down to a multiple of 1,000,000
(the stored field holds `ts / 1000000` and `Timestamp` multiplies it back),
and the round trip is the identity exactly when `ts` is divisible by
1,000,000. -/
theorem prepareRequest_timestamp_roundtrip (p : PrepareRequest) (ts : Nat)
    (h : ts < 2 ^ 64) :
    (p.setTimestamp ts).getTimestamp = ts - ts % 1000000 ∧
    ((p.setTimestamp ts).getTimestamp = ts ↔ ts % 1000000 = 0) := by
  have hle : ts / 1000000 * 1000000 ≤ ts := Nat.div_mul_le_self ts 1000000
  have hmod : (p.setTimestamp ts).getTimestamp = ts / 1000000 * 1000000 := by
    simp only [PrepareRequest.setTimestamp, PrepareRequest.getTimestamp]
    exact Nat.mod_eq_of_lt (lt_of_le_of_lt hle h)
  have hdm := Nat.div_add_mod ts 1000000
  constructor
  · omega
  · omega

/-! ## Serialization totality and round trip -/

theorem serializableItems_mem {xs : List StackItem} (h : serializableItems xs = true) :
    ∀ x ∈ xs, serializableItem x = true := by
  induction xs with
  | nil => intro x hx; cases hx
  | cons y ys IH =>
    simp only [serializableItems, Bool.and_eq_true] at h
    intro x hx
    rcases List.mem_cons.mp hx with rfl | hx
    · exact h.1
    · exact IH h.2 x hx

theorem serializablePairs_mem {kvs : List (StackItem × StackItem)}
    (h : serializablePairs kvs = true) :
    ∀ p ∈ kvs, serializableItem p.1 = true ∧ serializableItem p.2 = true := by
  induction kvs with
  | nil => intro p hp; cases hp
  | cons q qs IH =>
    obtain ⟨k, v⟩ := q
    simp only [serializablePairs, Bool.and_eq_true] at h
    intro p hp
    rcases List.mem_cons.mp hp with rfl | hp
    · exact ⟨h.1.1, h.1.2⟩
    · exact IH h.2 p hp

theorem serializeItems_total (xs : List StackItem)
    (h : ∀ x ∈ xs, ∃ bs, serializeItem x = some bs) :
    ∃ body, serializeItems xs = some body := by
  induction xs with
  | nil => exact ⟨[], by simp [serializeItems]⟩
  | cons x xs IHxs =>
    obtain ⟨bx, hbx⟩ := h x (List.mem_cons_self x xs)
    obtain ⟨bxs, hbxs⟩ := IHxs (fun y hy => h y (List.mem_cons_of_mem _ hy))
    exact ⟨bx ++ bxs, by simp [serializeItems, hbx, hbxs]⟩

theorem serializePairs_total (kvs : List (StackItem × StackItem))
    (h : ∀ p ∈ kvs, (∃ bs, serializeItem p.1 = some bs) ∧
      ∃ bs, serializeItem p.2 = some bs) :
    ∃ body, serializePairs kvs = some body := by
  induction kvs with
  | nil => exact ⟨[], by simp [serializePairs]⟩
  | cons q qs IHqs =>
    obtain ⟨k, v⟩ := q
    obtain ⟨⟨bk, hbk⟩, ⟨bv, hbv⟩⟩ := h (k, v) (List.mem_cons_self _ qs)
    obtain ⟨bqs, hbqs⟩ := IHqs (fun p hp => h p (List.mem_cons_of_mem _ hp))
    exact ⟨bk ++ (bv ++ bqs), by simp [serializePairs, hbk, hbv, hbqs]⟩

theorem serializeItem_total_aux : ∀ (n : Nat) (x : StackItem), sizeOf x ≤ n →
    serializableItem x = true → ∃ bs, serializeItem x = some bs := by
  intro n
  induction n with
  | zero =>
    intro x hx _
    exfalso
    cases x <;> simp_arith at hx
  | succ n IH =>
    intro x hx hs
    cases x with
    | boolItem b => exact ⟨[0x20, if b then 1 else 0], by simp [serializeItem]⟩
    | intItem m => exact ⟨0x21 :: varBytes (intToBytes m), by simp [serializeItem]⟩
    | bytesItem bs => exact ⟨0x28 :: varBytes bs, by simp [serializeItem]⟩
    | interopItem id => simp [serializableItem] at hs
    | arrayItem xs =>
      simp only [serializableItem, Bool.and_eq_true] at hs
      have hmem : ∀ y ∈ xs, ∃ bs, serializeItem y = some bs := by
        intro y hy
        apply IH y ?_ (serializableItems_mem hs.2 y hy)
        have h1 : sizeOf y < sizeOf xs := List.sizeOf_lt_of_mem hy
        have h2 : sizeOf (StackItem.arrayItem xs) = 1 + sizeOf xs := by
          simp_arith
        omega
      obtain ⟨body, hbody⟩ := serializeItems_total xs hmem
      exact ⟨0x40 :: (varUInt xs.length ++ body), by simp [serializeItem, hbody]⟩
    | structItem xs =>
      simp only [serializableItem, Bool.and_eq_true] at hs
      have hmem : ∀ y ∈ xs, ∃ bs, serializeItem y = some bs := by
        intro y hy
        apply IH y ?_ (serializableItems_mem hs.2 y hy)
        have h1 : sizeOf y < sizeOf xs := List.sizeOf_lt_of_mem hy
        have h2 : sizeOf (StackItem.structItem xs) = 1 + sizeOf xs := by
          simp_arith
        omega
      obtain ⟨body, hbody⟩ := serializeItems_total xs hmem
      exact ⟨0x41 :: (varUInt xs.length ++ body), by simp [serializeItem, hbody]⟩
    | mapItem kvs =>
      simp only [serializableItem, Bool.and_eq_true] at hs
      have hmem : ∀ p ∈ kvs, (∃ bs, serializeItem p.1 = some bs) ∧
          ∃ bs, serializeItem p.2 = some bs := by
        intro p hp
        have hps := serializablePairs_mem hs.2 p hp
        have h1 : sizeOf p < sizeOf kvs := List.sizeOf_lt_of_mem hp
        have h2 : sizeOf (StackItem.mapItem kvs) = 1 + sizeOf kvs := by
          simp_arith
        obtain ⟨k, v⟩ := p
        have h3 : sizeOf ((k, v) : StackItem × StackItem) = 1 + sizeOf k + sizeOf v := by
          simp_arith
        constructor
        · exact IH k (by omega) hps.1
        · exact IH v (by omega) hps.2
      obtain ⟨body, hbody⟩ := serializePairs_total kvs hmem
      exact ⟨0x48 :: (varUInt kvs.length ++ body), by simp [serializeItem, hbody]⟩

theorem serializeItem_total (x : StackItem) (h : serializableItem x = true) :
    ∃ bs, serializeItem x = some bs :=
  serializeItem_total_aux (sizeOf x) x (le_refl _) h

theorem deserializeMany_roundtrip (fuel : Nat)
    (IH : ∀ (x : StackItem) (bx rest : List Nat), serializableItem x = true →
      serializeItem x = some bx → bx.length < fuel →
      deserializeItem fuel (bx ++ rest) = some (x, rest)) :
    ∀ (xs : List StackItem) (body rest : List Nat), serializableItems xs = true →
      serializeItems xs = some body → body.length < fuel →
      deserializeMany fuel xs.length (body ++ rest) = some (xs, rest) := by
  intro xs
  induction xs with
  | nil =>
    intro body rest _ hser _
    simp only [serializeItems, Option.some.injEq] at hser
    subst hser
    simp [deserializeMany]
  | cons x xs IHxs =>
    intro body rest hsa hser hlen
    simp only [serializableItems, Bool.and_eq_true] at hsa
    simp only [serializeItems] at hser
    cases hx : serializeItem x with
    | none => rw [hx] at hser; simp at hser
    | some bx =>
      cases hxs : serializeItems xs with
      | none => rw [hx, hxs] at hser; simp at hser
      | some bxs =>
        rw [hx, hxs] at hser
        simp only [Option.some.injEq] at hser
        subst hser
        simp only [List.length_append] at hlen
        simp only [List.length_cons, deserializeMany]
        rw [List.append_assoc]
        rw [IH x bx (bxs ++ rest) hsa.1 hx (by omega)]
        simp only []
        rw [IHxs bxs rest hsa.2 hxs (by omega)]

theorem deserializePairs_roundtrip (fuel : Nat)
    (IH : ∀ (x : StackItem) (bx rest : List Nat), serializableItem x = true →
      serializeItem x = some bx → bx.length < fuel →
      deserializeItem fuel (bx ++ rest) = some (x, rest)) :
    ∀ (kvs : List (StackItem × StackItem)) (body rest : List Nat),
      serializablePairs kvs = true → serializePairs kvs = some body →
      body.length < fuel →
      deserializePairs fuel kvs.length (body ++ rest) = some (kvs, rest) := by
  intro kvs
  induction kvs with
  | nil =>
    intro body rest _ hser _
    simp only [serializePairs, Option.some.injEq] at hser
    subst hser
    simp [deserializePairs]
  | cons q qs IHqs =>
    obtain ⟨k, v⟩ := q
    intro body rest hsa hser hlen
    simp only [serializablePairs, Bool.and_eq_true] at hsa
    simp only [serializePairs] at hser
    cases hk : serializeItem k with
    | none => rw [hk] at hser; simp at hser
    | some bk =>
      cases hv : serializeItem v with
      | none => rw [hk, hv] at hser; simp at hser
      | some bv =>
        cases hqs : serializePairs qs with
        | none => rw [hk, hv, hqs] at hser; simp at hser
        | some bqs =>
          rw [hk, hv, hqs] at hser
          simp only [Option.some.injEq] at hser
          subst hser
          simp only [List.length_append] at hlen
          simp only [List.length_cons, deserializePairs]
          rw [List.append_assoc]
          rw [IH k bk (bv ++ bqs ++ rest) hsa.1.1 hk (by omega)]
          simp only []
          rw [List.append_assoc]
          rw [IH v bv (bqs ++ rest) hsa.1.2 hv (by omega)]
          simp only []
          rw [IHqs bqs rest hsa.2 hqs (by omega)]

theorem deserializeItem_roundtrip : ∀ (fuel : Nat) (x : StackItem) (bx rest : List Nat),
    serializableItem x = true → serializeItem x = some bx → bx.length < fuel →
    deserializeItem fuel (bx ++ rest) = some (x, rest) := by
  intro fuel
  induction fuel with
  | zero => intro x bx rest _ _ h; omega
  | succ fuel IH =>
    intro x bx rest hsa hser hlen
    cases x with
    | boolItem b =>
      simp only [serializeItem, Option.some.injEq] at hser
      subst hser
      cases b <;> simp [deserializeItem]
    | intItem m =>
      simp only [serializeItem, Option.some.injEq] at hser
      subst hser
      simp only [serializableItem] at hsa
      have hlen64 : (intToBytes m).length < 2 ^ 64 := by
        have h33 := intToBytes_length_le m hsa
        have : (33 : Nat) < 2 ^ 64 := by norm_num
        omega
      simp only [List.cons_append]
      rw [deserializeItem.eq_def]
      norm_num
      simp only [readVarBytes_varBytes _ hlen64, bytesToInt_intToBytes]
    | bytesItem bs =>
      simp only [serializeItem, Option.some.injEq] at hser
      subst hser
      simp only [serializableItem, decide_eq_true_eq] at hsa
      have hlen64 : bs.length < 2 ^ 64 := by
        have : MaxItemSize < 2 ^ 64 := by norm_num [MaxItemSize]
        omega
      simp only [List.cons_append]
      rw [deserializeItem.eq_def]
      norm_num
      simp only [readVarBytes_varBytes _ hlen64]
    | interopItem id =>
      simp only [serializeItem] at hser
      exact Option.noConfusion hser
    | arrayItem xs =>
      simp only [serializeItem] at hser
      cases hxs : serializeItems xs with
      | none => rw [hxs] at hser; simp at hser
      | some body =>
        rw [hxs] at hser
        simp only [Option.some.injEq] at hser
        subst hser
        simp only [serializableItem, Bool.and_eq_true, decide_eq_true_eq] at hsa
        have hcnt : xs.length < 2 ^ 64 := by
          have : MaxArraySize < 2 ^ 64 := by norm_num [MaxArraySize]
          omega
        have hvpos := varUInt_length_pos xs.length
        have hblen : body.length < fuel := by
          simp only [List.length_cons, List.length_append] at hlen; omega
        simp only [List.cons_append]
        rw [deserializeItem.eq_def]
        norm_num
        simp only [List.append_assoc, readVarUInt_varUInt xs.length hcnt (body ++ rest),
          deserializeMany_roundtrip fuel IH xs body rest hsa.2 hxs hblen]
    | structItem xs =>
      simp only [serializeItem] at hser
      cases hxs : serializeItems xs with
      | none => rw [hxs] at hser; simp at hser
      | some body =>
        rw [hxs] at hser
        simp only [Option.some.injEq] at hser
        subst hser
        simp only [serializableItem, Bool.and_eq_true, decide_eq_true_eq] at hsa
        have hcnt : xs.length < 2 ^ 64 := by
          have : MaxArraySize < 2 ^ 64 := by norm_num [MaxArraySize]
          omega
        have hvpos := varUInt_length_pos xs.length
        have hblen : body.length < fuel := by
          simp only [List.length_cons, List.length_append] at hlen; omega
        simp only [List.cons_append]
        rw [deserializeItem.eq_def]
        norm_num
        simp only [List.append_assoc, readVarUInt_varUInt xs.length hcnt (body ++ rest),
          deserializeMany_roundtrip fuel IH xs body rest hsa.2 hxs hblen]
    | mapItem kvs =>
      simp only [serializeItem] at hser
      cases hkvs : serializePairs kvs with
      | none => rw [hkvs] at hser; simp at hser
      | some body =>
        rw [hkvs] at hser
        simp only [Option.some.injEq] at hser
        subst hser
        simp only [serializableItem, Bool.and_eq_true, decide_eq_true_eq] at hsa
        have hcnt : kvs.length < 2 ^ 64 := by
          have : MaxArraySize < 2 ^ 64 := by norm_num [MaxArraySize]
          omega
        have hvpos := varUInt_length_pos kvs.length
        have hblen : body.length < fuel := by
          simp only [List.length_cons, List.length_append] at hlen; omega
        simp only [List.cons_append]
        rw [deserializeItem.eq_def]
        norm_num
        simp only [List.append_assoc, readVarUInt_varUInt kvs.length hcnt (body ++ rest),
          deserializePairs_roundtrip fuel IH kvs body rest hsa.2 hkvs hblen]

/-- Helper: `vmArith` as a single `if` characterisation. -/
theorem vmArith_char (f : Int → Int → Int) (a b : Int) :
    vmArith f a b =
      if checkBigIntSize a && checkBigIntSize b && checkBigIntSize (f a b) then
        some (f a b)
      else none := by
  simp only [vmArith]
  cases ha : checkBigIntSize a <;> cases hb : checkBigIntSize b <;>
    cases hr : checkBigIntSize (f a b) <;> simp [ha, hb, hr]

/-- C9 counterexample: the claim says SHL succeeds whenever both operands
and the result fit in `MaxBigIntegerSizeBits` bits, but shifting 0 by 257
(operands 0 and 257 and result 0 all well within 256 bits) makes the VM
FAULT, because the shift amount exceeds `maxSHLArg`. -/
theorem vmSHL_shift_bound_counterexample :
    vmSHL 0 257 = none ∧ checkBigIntSize 0 = true ∧ checkBigIntSize 257 = true ∧
      checkBigIntSize (0 * (2 : Int) ^ (257 : Int).toNat) = true := by
  refine ⟨?_, by decide, by decide, by decide⟩
  simp [vmSHL, maxSHLArg]

/-- C9 (amended): ADD, SUB and MUL fault exactly when an operand or the
exact result exceeds `MaxBigIntegerSizeBits` bits and otherwise push the
exact arbitrary-precision result; SHL behaves the same way for shift
amounts in `1 .. maxSHLArg`, but additionally faults on any nonzero shift
amount outside that range even when operands and result are in bounds; INC
at the boundary: incrementing `2 ^ 256 - 2` succeeds, incrementing once
more faults. -/
theorem arith_opcode_integer_cap :
    (∀ a b : Int, vmADD a b =
      if checkBigIntSize a && checkBigIntSize b && checkBigIntSize (a + b) then
        some (a + b) else none) ∧
    (∀ a b : Int, vmSUB a b =
      if checkBigIntSize a && checkBigIntSize b && checkBigIntSize (a - b) then
        some (a - b) else none) ∧
    (∀ a b : Int, vmMUL a b =
      if checkBigIntSize a && checkBigIntSize b && checkBigIntSize (a * b) then
        some (a * b) else none) ∧
    (∀ a b : Int, 0 < b → b ≤ maxSHLArg →
      vmSHL a b =
        if checkBigIntSize a && checkBigIntSize (a * (2 : Int) ^ b.toNat) then
          some (a * (2 : Int) ^ b.toNat) else none) ∧
    (∀ b : Int, b < 0 ∨ maxSHLArg < b → vmSHL 0 b = none) ∧
    (∀ a : Int, vmINC a =
      if checkBigIntSize a && checkBigIntSize (a + 1) then some (a + 1) else none) := by
  refine ⟨fun a b => vmArith_char _ a b, fun a b => vmArith_char _ a b,
    fun a b => vmArith_char _ a b, fun a b hb1 hb2 => ?_, fun b hb => ?_, fun a => ?_⟩
  · have hne : ¬ b = 0 := by omega
    have hr : ¬ (b < 0 ∨ maxSHLArg < b) := by
      simp only [maxSHLArg] at hb2 ⊢; omega
    simp only [vmSHL, if_neg hne, if_neg hr]
    cases ha : checkBigIntSize a <;>
      cases hres : checkBigIntSize (a * (2 : Int) ^ b.toNat) <;> simp [ha, hres]
  · have hne : ¬ b = 0 := by
      simp only [maxSHLArg] at hb; omega
    simp only [vmSHL, if_neg hne, if_pos hb]
  · simp only [vmINC]
    cases ha : checkBigIntSize a <;> cases hr : checkBigIntSize (a + 1) <;>
      simp [ha, hr]

/-- C9 witness: the boundary example of the claim, plus an in-range SHL. -/
theorem arith_opcode_integer_cap_witness :
    vmINC (2 ^ 256 - 2) = some (2 ^ 256 - 1) ∧ vmINC (2 ^ 256 - 1) = none ∧
      vmSHL 3 2 = some 12 := by
  refine ⟨?_, ?_, ?_⟩
  · rw [arith_opcode_integer_cap.2.2.2.2.2 (2 ^ 256 - 2)]; decide
  · rw [arith_opcode_integer_cap.2.2.2.2.2 (2 ^ 256 - 1)]; decide
  · rw [arith_opcode_integer_cap.2.2.2.1 3 2 (by decide) (by decide)]; decide

/-- C7: for every serializable stack item `x` that is not an interop handle
(and, the model being a tree, necessarily acyclic), `Runtime.Serialize`
followed by `Runtime.Deserialize` yields an item deeply structurally equal
to `x`, for booleans, integers, byte arrays, arrays, structs and maps;
serializing an interop handle faults, and serializing the cyclic
self-referencing array of `TestSerializeArrayBad` (modelled in the
arena representation, where cycles are expressible) faults. -/
theorem serialize_roundtrip_claim :
    (∀ x : StackItem, serializableItem x = true →
      ∃ bs, serializeItem x = some bs ∧ runtimeDeserialize bs = some x) ∧
    (∀ id : Nat, serializeItem (.interopItem id) = none) ∧
    serializeGRefTop cyclicArrayArena (.node 0) = none := by
  refine ⟨?_, fun id => by simp [serializeItem], ?_⟩
  · intro x hx
    obtain ⟨bs, hbs⟩ := serializeItem_total x hx
    refine ⟨bs, hbs, ?_⟩
    unfold runtimeDeserialize
    have h := deserializeItem_roundtrip (bs.length + 1) x bs [] hx hbs (by omega)
    rw [List.append_nil] at h
    rw [h]
  · norm_num [serializeGRefTop, cyclicArrayArena, serializeGRef, serializeGRefs,
      serializeItem]

/-- C7 witness: the key/value map of `TestSerializeMapCompat` serializes to
the compatibility bytes `480128036b6579280576616c7565` and deserializes
back to itself. -/
theorem serialize_roundtrip_claim_witness :
    serializeItem (.mapItem [(.bytesItem [107, 101, 121], .bytesItem [118, 97, 108, 117, 101])]) =
      some [0x48, 0x01, 0x28, 0x03, 107, 101, 121, 0x28, 0x05, 118, 97, 108, 117, 101] ∧
    runtimeDeserialize [0x48, 0x01, 0x28, 0x03, 107, 101, 121, 0x28, 0x05, 118, 97, 108, 117, 101] =
      some (.mapItem [(.bytesItem [107, 101, 121], .bytesItem [118, 97, 108, 117, 101])]) := by
  have hser : serializeItem
      (.mapItem [(.bytesItem [107, 101, 121], .bytesItem [118, 97, 108, 117, 101])]) =
      some [0x48, 0x01, 0x28, 0x03, 107, 101, 121, 0x28, 0x05, 118, 97, 108, 117, 101] := by
    norm_num [serializeItem, serializePairs, varBytes, varUInt]
  obtain ⟨bs, h1, h2⟩ := serialize_roundtrip_claim.1
    (.mapItem [(.bytesItem [107, 101, 121], .bytesItem [118, 97, 108, 117, 101])])
    (by norm_num [serializableItem, serializablePairs, MaxArraySize, MaxItemSize])
  have hbs : bs = [0x48, 0x01, 0x28, 0x03, 107, 101, 121, 0x28, 0x05, 118, 97, 108, 117, 101] := by
    rw [hser] at h1
    exact (Option.some.inj h1).symm
  subst hbs
  exact ⟨hser, h2⟩

/-- C6: the VM's map value enumeration is order-dependent, not a function
of the map contents alone: the two-entry map of `TestIteratorValues`
(`{1 ↦ false, [32] ↦ [7]}`) admits two iteration orders (permutations of
the same entries) whose enumeration leaves different final evaluation
stacks, so two runs with identical script, gas limit, interop table and
initial stack need not produce identical stacks. -/
theorem map_value_enumeration_order_dependent :
    [(StackItem.intItem 1, StackItem.boolItem false),
      (StackItem.bytesItem [32], StackItem.bytesItem [7])].Perm
      [(StackItem.bytesItem [32], StackItem.bytesItem [7]),
        (StackItem.intItem 1, StackItem.boolItem false)] ∧
    enumeratorProgStack (iteratorValuesOutput
      [(StackItem.intItem 1, StackItem.boolItem false),
        (StackItem.bytesItem [32], StackItem.bytesItem [7])]) ≠
    enumeratorProgStack (iteratorValuesOutput
      [(StackItem.bytesItem [32], StackItem.bytesItem [7]),
        (StackItem.intItem 1, StackItem.boolItem false)]) := by
  constructor
  · exact List.Perm.swap _ _ _
  · intro h
    simp [enumeratorProgStack, iteratorValuesOutput] at h

theorem itemCountList_replicate_bool (n : Nat) :
    itemCountList (List.replicate n (StackItem.boolItem false)) = n := by
  induction n with
  | zero => simp [itemCountList]
  | succ n IH =>
    simp [List.replicate, itemCountList, itemCount, IH]
    omega

/-- C8: any instruction whose raw execution would push the total live item
count (evaluation and alt stacks, compound contents included) above
`MaxStackSize` makes the run FAULT with `stackOverflow` at exactly that
instruction, and a program whose every step keeps the live count at or
below `MaxStackSize` never faults for that reason. -/
theorem stack_size_cap :
    (∀ (i : Instr) (rest : List Instr) (s s2 : VMStacks),
      execInstr i s = some s2 → MaxStackSize < totalCount s2 →
      runProg (i :: rest) s = .fault .stackOverflow) ∧
    (∀ (prog : List Instr) (s : VMStacks), keepsBound prog s = true →
      runProg prog s ≠ .fault .stackOverflow) := by
  constructor
  · intro i rest s s2 hexec hover
    simp only [runProg, stepVM, hexec]
    rw [if_pos hover]
  · intro prog
    induction prog with
    | nil =>
      intro s _ h
      simp [runProg] at h
    | cons i rest IH =>
      intro s hk h
      simp only [keepsBound] at hk
      cases hexec : execInstr i s with
      | none =>
        simp only [runProg, stepVM, hexec] at h
        simp at h
      | some s2 =>
        rw [hexec] at hk
        simp only [Bool.and_eq_true, decide_eq_true_eq] at hk
        simp only [runProg, stepVM, hexec] at h
        rw [if_neg (by omega)] at h
        exact IH s2 hk.2 h

/-- C8 witness: pushing a 2049-element struct onto empty stacks takes the
live count to 2050 > 2048, and the run faults with `stackOverflow` at that
instruction. -/
theorem stack_size_cap_witness :
    runProg [Instr.push (.structItem (List.replicate 2049 (.boolItem false)))]
      { estack := [], astack := [] } = .fault .stackOverflow := by
  apply stack_size_cap.1 (Instr.push (.structItem (List.replicate 2049 (.boolItem false)))) []
    { estack := [], astack := [] }
    { estack := [.structItem (List.replicate 2049 (.boolItem false))], astack := [] }
  · rfl
  · show MaxStackSize < totalCount _
    simp [totalCount, itemCountList, itemCount, itemCountList_replicate_bool, MaxStackSize]

/-! ## Helper lemmas for the transaction.go embedding -/

theorem getD_set_self {α : Type} [Inhabited α] (l : List α) (i : Nat) (a : α)
    (h : i < l.length) : (l.set i a).getD i default = a := by
  simp [List.getD, List.getElem?_set_self, h]

theorem lor_land_pow_ne_zero (x i : Nat) : (x ||| 2 ^ i) &&& 2 ^ i ≠ 0 := by
  rw [Nat.and_two_pow]
  have hb : (x ||| 2 ^ i).testBit i = true := by
    rw [Nat.testBit_lor, Nat.testBit_two_pow_self]
    simp
  rw [hb]
  simp

theorem lookupA_insertA_self {α : Type} (l : List (Nat × α)) (k : Nat) (v : α) :
    lookupA (insertA l k v) k = some v := by
  induction l with
  | nil => simp [insertA, lookupA]
  | cons p rest IH =>
    obtain ⟨k1, v1⟩ := p
    by_cases hk : k1 = k
    · subst hk; simp [insertA, lookupA]
    · simp [insertA, lookupA, hk, IH]

theorem lookupA_insertA_other {α : Type} (l : List (Nat × α)) (k k2 : Nat) (v : α)
    (h : k2 ≠ k) : lookupA (insertA l k v) k2 = lookupA l k2 := by
  have h2 : ¬ k = k2 := fun he => h he.symm
  induction l with
  | nil => simp [insertA, lookupA, h2]
  | cons p rest IH =>
    obtain ⟨k1, v1⟩ := p
    by_cases hk : k1 = k
    · subst hk
      simp [insertA, lookupA, h2]
    · simp [insertA, lookupA, hk, IH]

theorem lookupA_mem {α : Type} {l : List (Nat × α)} {k : Nat} {v : α}
    (h : lookupA l k = some v) : (k, v) ∈ l := by
  induction l with
  | nil => simp [lookupA] at h
  | cons p rest IH =>
    obtain ⟨k1, v1⟩ := p
    by_cases hk : k1 = k
    · subst hk
      simp [lookupA] at h
      subst h
      exact List.mem_cons_self _ _
    · simp [lookupA, hk] at h
      exact List.mem_cons_of_mem _ (IH h)

theorem removeFirstUB_none {l : List UnclaimedBalance} {tx idx : Nat}
    (h : removeFirstUB l tx idx = none) : countMatchingUB l tx idx = 0 := by
  induction l with
  | nil => rfl
  | cons u rest IH =>
    simp only [removeFirstUB] at h
    by_cases hm : u.tx = tx ∧ u.index = idx
    · rw [if_pos hm] at h; cases h
    · rw [if_neg hm] at h
      cases hrm : removeFirstUB rest tx idx with
      | some r2 => rw [hrm] at h; cases h
      | none =>
        simp only [countMatchingUB, List.filter]
        have : (decide (u.tx = tx ∧ u.index = idx)) = false := by
          simp [hm]
        rw [this]
        exact IH hrm

theorem removeFirstUB_some {l l2 : List UnclaimedBalance} {tx idx : Nat}
    (h : removeFirstUB l tx idx = some l2) :
    countMatchingUB l2 tx idx = countMatchingUB l tx idx - 1 ∧
      0 < countMatchingUB l tx idx := by
  induction l generalizing l2 with
  | nil => simp [removeFirstUB] at h
  | cons u rest IH =>
    simp only [removeFirstUB] at h
    by_cases hm : u.tx = tx ∧ u.index = idx
    · rw [if_pos hm] at h
      injection h with h2
      subst h2
      have hdec : (decide (u.tx = tx ∧ u.index = idx)) = true := by simp [hm]
      simp only [countMatchingUB, List.filter, hdec]
      simp
    · rw [if_neg hm] at h
      cases hrm : removeFirstUB rest tx idx with
      | none => rw [hrm] at h; cases h
      | some r2 =>
        rw [hrm] at h
        injection h with h2
        subst h2
        have hdec : (decide (u.tx = tx ∧ u.index = idx)) = false := by simp [hm]
        obtain ⟨h1, h2⟩ := IH hrm
        simp only [countMatchingUB, List.filter, hdec] at h1 h2 ⊢
        omega

/-- C10 witness at `ts = 3000007`. -/
theorem prepareRequest_timestamp_roundtrip_witness :
    ({ timestamp := 0, nonce := 0, transactionHashes := [], nextConsensus := 0 :
        PrepareRequest }.setTimestamp 3000007).getTimestamp = 3000007 - 3000007 % 1000000 :=
  (prepareRequest_timestamp_roundtrip _ 3000007 (by decide)).1

/-! ## Claims on transaction.go -/

/-- C4: `processTXInput` succeeds only if the referenced output exists
(the previous index lies within the unspent-coin state vector) and its
spent bit is not yet set; on success the returned unspent-coin state has
the spent bit set and the spend height equal to the applying block's
index at exactly that index; an out-of-range or already-spent reference
returns an error (and hence marks nothing). -/
theorem processTXInput_spec (input : TxInput) (unspent : UnspentCoin)
    (blockIndex : Nat) (cache : Dao) :
    (∀ u2 d2, processTXInput input unspent blockIndex cache = .ok (u2, d2) →
      input.prevIndex < unspent.states.length ∧
      (unspent.states.getD input.prevIndex default).state &&& CoinSpent = 0 ∧
      u2 = { unspent with states := (unspent.states.set input.prevIndex { unspent.states.getD input.prevIndex default with state := (unspent.states.getD input.prevIndex default).state ||| CoinSpent, spendHeight := blockIndex }) } ∧
      ((unspent.states.set input.prevIndex { unspent.states.getD input.prevIndex default with state := (unspent.states.getD input.prevIndex default).state ||| CoinSpent, spendHeight := blockIndex }).getD input.prevIndex default).state &&& CoinSpent ≠ 0 ∧
      ((unspent.states.set input.prevIndex { unspent.states.getD input.prevIndex default with state := (unspent.states.getD input.prevIndex default).state ||| CoinSpent, spendHeight := blockIndex }).getD input.prevIndex default).spendHeight = blockIndex) ∧
    ((unspent.states.length ≤ input.prevIndex ∨
        (unspent.states.getD input.prevIndex default).state &&& CoinSpent ≠ 0) →
      (processTXInput input unspent blockIndex cache).isOk = false) := by
  constructor
  · intro u2 d2 h
    by_cases hlen : unspent.states.length ≤ input.prevIndex
    · simp only [processTXInput, if_pos hlen] at h
      exact Except.noConfusion h
    · by_cases hsp : (unspent.states.getD input.prevIndex default).state &&& CoinSpent ≠ 0
      · simp only [processTXInput, if_neg hlen, if_pos hsp] at h
        exact Except.noConfusion h
      · simp only [processTXInput, if_neg hlen, if_neg hsp, Except.ok.injEq,
          Prod.mk.injEq] at h
        obtain ⟨hu, hd⟩ := h
        refine ⟨by omega, not_not.mp hsp, hu.symm, ?_, ?_⟩
        · rw [getD_set_self _ _ _ (by omega)]
          have h2 : CoinSpent = 2 ^ 1 := rfl
          show ((unspent.states.getD input.prevIndex default).state ||| CoinSpent) &&&
            CoinSpent ≠ 0
          rw [h2]
          exact lor_land_pow_ne_zero _ 1
        · rw [getD_set_self _ _ _ (by omega)]
  · intro hbad
    by_cases hlen : unspent.states.length ≤ input.prevIndex
    · simp only [processTXInput, if_pos hlen]
      rfl
    · rcases hbad with hbad | hbad
      · omega
      · simp only [processTXInput, if_neg hlen, if_pos hbad]
        rfl

/-- C4 witness: spending the sole output `(5, 0)` of a one-output coin
state at block 9 sets the spent bit (`0 ||| 2 = 2`) at index 0. -/
theorem processTXInput_spec_witness : (0 : Nat) < 1 ∧ ((2 : Nat) &&& 2 ≠ 0) := by
  have h := (processTXInput_spec { prevHash := 5, prevIndex := 0 }
    { height := 3, states := [{ state := 0, spendHeight := 0, output := { assetID := 2, amount := 50, scriptHash := 7 } }] } 9 emptyDao).1
    { height := 3, states := [{ state := 2, spendHeight := 9, output := { assetID := 2, amount := 50, scriptHash := 7 } }] }
    (emptyDao.putAccountState { scriptHash := 7, votes := [], balances := [], unclaimed := [] })
    (by rfl)
  exact ⟨h.1, h.2.2.2.1⟩

/-- C1: when the VM run of an invocation transaction terminates in FAULT,
`processInvocationTX` leaves the cache untouched except for appending an
`AppExecResult` that records the FAULT state and the gas consumed (the
staged DAO delta is not persisted and no NEP5 notification is processed),
and it returns without error. -/
theorem processInvocationTX_fault (freeGasLimit txGas : Int) (txHash : Nat)
    (run : Option Int → VMRunOutcome) (cache : Dao)
    (hf : (run (invocationGasLimit freeGasLimit txGas)).state = VMState.faultSt) :
    processInvocationTX freeGasLimit txGas txHash run cache =
      .ok ({ cache with appExecResults := cache.appExecResults ++
        [{ txHash := txHash, trigger := triggerApplication,
           vmState := VMState.faultSt,
           gasConsumed := (run (invocationGasLimit freeGasLimit txGas)).gasConsumed,
           stack := (run (invocationGasLimit freeGasLimit txGas)).stack,
           events := (run (invocationGasLimit freeGasLimit txGas)).notifications }] }) := by
  have hfail : (run (invocationGasLimit freeGasLimit txGas)).hasFailed = true := by
    simp [VMRunOutcome.hasFailed, hf]
  simp only [processInvocationTX, hfail, if_true, hf, Dao.putAppExecResult]

/-- C1 witness: a faulting run with gas 7 on the empty DAO yields exactly
the appended FAULT AppExecResult and no error. -/
theorem processInvocationTX_fault_witness :
    processInvocationTX 10 5 99
      (fun _ => { state := .faultSt, gasConsumed := 7, stack := [], notifications := [], daoDelta := [(1, 2)] }) emptyDao =
    .ok { emptyDao with appExecResults := [{ txHash := 99, trigger := triggerApplication, vmState := .faultSt, gasConsumed := 7, stack := [], events := [] }] } :=
  processInvocationTX_fault 10 5 99 _ emptyDao rfl

/-- C5 counterexample: with `FreeGasLimit = 0` (its default) the gas-limit
setup is skipped entirely — the VM runs with no limit — rather than
running under a limit of `0 + tx.gas`. -/
theorem invocationGasLimit_counterexample :
    invocationGasLimit 0 5 ≠ some (0 + 5) ∧ invocationGasLimit 0 5 = none := by
  constructor
  · simp [invocationGasLimit]
  · simp [invocationGasLimit]

/-- C5 (amended): when the configured free gas limit is positive the VM
gas limit is set to `FreeGasLimit + tx.gas` (as wrap-around `int64`
addition, which is the plain sum whenever it fits in an `int64`); when the
free gas limit is zero or negative no gas limit is set at all. -/
theorem invocation_gas_limit_spec (f g : Int) :
    (0 < f → invocationGasLimit f g = some (int64Add f g)) ∧
    (0 < f → -(2 ^ 63) ≤ f + g → f + g < 2 ^ 63 →
      invocationGasLimit f g = some (f + g)) ∧
    (f ≤ 0 → invocationGasLimit f g = none) := by
  refine ⟨fun hf => by simp [invocationGasLimit, hf], fun hf h1 h2 => ?_, fun hf => ?_⟩
  · simp only [invocationGasLimit, if_pos hf, int64Add, Option.some.injEq]
    have h3 : (f + g + 2 ^ 63) % 2 ^ 64 = f + g + 2 ^ 63 :=
      Int.emod_eq_of_lt (by omega) (by omega)
    rw [h3]
    ring
  · simp only [invocationGasLimit, if_neg (by omega : ¬ (0 : Int) < f)]

/-- C5 witness: free gas 10 and tx gas 5 give limit 15; free gas 0 gives
no limit. -/
theorem invocation_gas_limit_spec_witness :
    invocationGasLimit 10 5 = some 15 ∧ invocationGasLimit 0 7 = none := by
  refine ⟨?_, (invocation_gas_limit_spec 0 7).2.2 (by norm_num)⟩
  have h := (invocation_gas_limit_spec 10 5).2.1 (by norm_num) (by norm_num) (by norm_num)
  simpa using h

/-- C2 (amended): on the first bad claim reference (missing unspent-coin
state, index out of range, or already claimed) `processClaimTX` with
strict verification on returns that error, failing the block; with strict
verification off the bad claim is only logged and the loop `break`s — the
remaining claim references are NOT processed and `processClaimTX` returns
success with the cache exactly as accumulated so far. -/
theorem processClaimTX_bad_claim (cache : Dao) (input : TxInput)
    (rest : List TxInput) (e : String)
    (h : processClaimInput cache input = .badClaim e) :
    processClaimTX true cache (input :: rest) = .error e ∧
    processClaimTX false cache (input :: rest) = .ok cache := by
  constructor <;> simp [processClaimTX, h]

/-- C2 counterexample: with strict verification off, a ClaimTX whose first
reference is unknown and whose second reference is perfectly claimable
returns with the DAO unchanged — the valid second claim is never applied,
so processing does not continue past the bad reference. -/
theorem processClaimTX_break_counterexample :
    processClaimInput claimDemoDao { prevHash := 9, prevIndex := 0 } =
      .badClaim "missing unspent coin state" ∧
    (processClaimInput claimDemoDao { prevHash := 5, prevIndex := 0 }).isAccepted = true ∧
    processClaimTX false claimDemoDao
      [{ prevHash := 9, prevIndex := 0 }, { prevHash := 5, prevIndex := 0 }] =
      .ok claimDemoDao :=
  ⟨rfl, rfl, rfl⟩

/-- C2 witness: a single unknown claim reference errors in strict mode and
returns success with the cache unchanged otherwise. -/
theorem processClaimTX_bad_claim_witness :
    processClaimTX true claimDemoDao [{ prevHash := 9, prevIndex := 0 }] =
      .error "missing unspent coin state" ∧
    processClaimTX false claimDemoDao [{ prevHash := 9, prevIndex := 0 }] =
      .ok claimDemoDao :=
  processClaimTX_bad_claim claimDemoDao _ [] _ rfl

/-- C3 counterexample: `processClaimTX` accepts a claim whose referenced
coin state was never spent (its flag bits are 0): being "already spent" is
not verified before the claim is applied, contradicting the claim. The
concrete DAO holds the completely unspent governing-token output `(5, 0)`
and the claim on it is accepted. -/
theorem claim_accepts_unspent_counterexample :
    unspentClaimDao.getUnspentCoinState 5 = some { height := 3, states := [{ state := 0, spendHeight := 0, output := { assetID := GoverningTokenID, amount := 100, scriptHash := 7 } }] } ∧
    ((0 : Nat) &&& CoinSpent = 0) ∧
    (processClaimInput unspentClaimDao { prevHash := 5, prevIndex := 0 }).isAccepted = true :=
  ⟨rfl, rfl, rfl⟩

/-- C3 (amended): a claim reference that `processClaimTX` accepts was
verified to be in range and not yet claimed — spent-ness is NOT checked —
and on acceptance the claimed bit of that coin state is set and one
matching UnclaimedBalance entry (when present) is removed from the owning
account. -/
theorem processClaimInput_spec (cache : Dao) (input : TxInput) (d2 : Dao)
    (scs : UnspentCoin) (acc : AccountState)
    (hwk : accountsWellKeyed cache = true)
    (hscs : cache.getUnspentCoinState input.prevHash = some scs)
    (hacc : cache.getAccountState
      (scs.states.getD input.prevIndex default).output.scriptHash = some acc)
    (h : processClaimInput cache input = .accepted d2) :
    input.prevIndex < scs.states.length ∧
    (scs.states.getD input.prevIndex default).state &&& CoinClaimed = 0 ∧
    d2.getUnspentCoinState input.prevHash = some { scs with states :=
      (scs.states.set input.prevIndex
        { scs.states.getD input.prevIndex default with
          state := (scs.states.getD input.prevIndex default).state ||| CoinClaimed }) } ∧
    ((scs.states.set input.prevIndex
        { scs.states.getD input.prevIndex default with
          state := (scs.states.getD input.prevIndex default).state ||| CoinClaimed }).getD
        input.prevIndex default).state &&& CoinClaimed ≠ 0 ∧
    (∀ acc2, d2.getAccountState acc.scriptHash = some acc2 →
      countMatchingUB acc2.unclaimed input.prevHash input.prevIndex =
        countMatchingUB acc.unclaimed input.prevHash input.prevIndex - 1) := by
  have howner : acc.scriptHash =
      (scs.states.getD input.prevIndex default).output.scriptHash := by
    have hmem := lookupA_mem hacc
    have hall := List.all_eq_true.mp hwk _ hmem
    exact of_decide_eq_true hall
  by_cases hlen : scs.states.length ≤ input.prevIndex
  · simp only [processClaimInput, hscs, if_pos hlen] at h
    exact ClaimStepResult.noConfusion h
  · by_cases hcl : (scs.states.getD input.prevIndex default).state &&& CoinClaimed ≠ 0
    · simp only [processClaimInput, hscs, if_neg hlen, if_pos hcl] at h
      exact ClaimStepResult.noConfusion h
    · simp only [processClaimInput, hscs, if_neg hlen, if_neg hcl, hacc] at h
      refine ⟨by omega, not_not.mp hcl, ?_, ?_, ?_⟩
      · cases hrm : removeFirstUB acc.unclaimed input.prevHash input.prevIndex with
        | none =>
          rw [hrm] at h
          injection h with h2
          subst h2
          exact lookupA_insertA_self _ _ _
        | some ub2 =>
          rw [hrm] at h
          injection h with h2
          subst h2
          exact lookupA_insertA_self _ _ _
      · rw [getD_set_self _ _ _ (by omega)]
        have h2 : CoinClaimed = 2 ^ 2 := rfl
        show ((scs.states.getD input.prevIndex default).state ||| CoinClaimed) &&&
          CoinClaimed ≠ 0
        rw [h2]
        exact lor_land_pow_ne_zero _ 2
      · intro acc2 hacc2
        cases hrm : removeFirstUB acc.unclaimed input.prevHash input.prevIndex with
        | none =>
          rw [hrm] at h
          injection h with h2
          subst h2
          have hacc2b : cache.getAccountState acc.scriptHash = some acc2 := hacc2
          rw [howner, hacc] at hacc2b
          injection hacc2b with h3
          subst h3
          rw [removeFirstUB_none hrm]
        | some ub2 =>
          rw [hrm] at h
          injection h with h2
          subst h2
          have hx := lookupA_insertA_self cache.accounts acc.scriptHash
            ({ acc with unclaimed := ub2 })
          have hacc2b : some ({ acc with unclaimed := ub2 } : AccountState) = some acc2 := by
            rw [← hacc2]
            exact hx.symm
          injection hacc2b with h3
          rw [← h3]
          exact (removeFirstUB_some hrm).1

/-- C3 witness: the normal claim of `(5, 0)` (spent bit 2, claimed bit
clear) is accepted, and the single matching unclaimed entry disappears. -/
theorem processClaimInput_spec_witness :
    (0 : Nat) < 1 ∧ countMatchingUB [] 5 0 =
      countMatchingUB [{ tx := 5, index := 0, start := 3, stop := 8, value := 100 }] 5 0 - 1 := by
  have h := processClaimInput_spec claimDemoDao { prevHash := 5, prevIndex := 0 }
    ((claimDemoDao.putUnspentCoinState 5 { height := 3, states := [{ state := 6, spendHeight := 8, output := { assetID := GoverningTokenID, amount := 100, scriptHash := 7 } }] }).putAccountState { scriptHash := 7, votes := [], balances := [], unclaimed := [] })
    { height := 3, states := [{ state := CoinSpent, spendHeight := 8, output := { assetID := GoverningTokenID, amount := 100, scriptHash := 7 } }] }
    { scriptHash := 7, votes := [], balances := [], unclaimed := [{ tx := 5, index := 0, start := 3, stop := 8, value := 100 }] }
    (by rfl) (by rfl) (by rfl) (by rfl)
  exact ⟨h.1, h.2.2.2.2 { scriptHash := 7, votes := [], balances := [], unclaimed := [] } (by rfl)⟩

end NeoGo
